import Mathlib

/-!
Shallow embedding of the retrieval/ranking core of the PeriCareAIBot
repository (src/rag_system.py, src/knowledge_base.py, src/chat_interface.py).

Strings are modelled as `List Char` (`Str`); Python string operations
(`in`, `.lower()`, `.strip()`, `.split()`, `str.replace`, `re.findall(r'\d+')`,
`re.search(r'https?://[^\s]+')`) are embedded as executable functions below.

Scores: every score constant appearing in the source (2.0, 1.8, 1.6, 1.5,
0.94, 0.90, 0.86, 0.82, 0.4, 0.3, 0.25, 0.2, 0.15, 0.1, 1.0, 0.95, 0.9,
0.8, 0.75, 0.7, 0.65) is an integer multiple of 0.01, and the only score
operations are `+`, `max`, `min` and comparisons, all of which commute with
scaling.  Scores are therefore modelled exactly as integers in centi-units
(`Score := ℤ`, value ×100): 2.0 ↦ 200, 0.7 ↦ 70, 0.3 ↦ 30, and so on.

The external generative provider is modelled by its observable behaviour:
the text it returns is a parameter (`Option String`, `none` meaning the
call raised an exception).
-/

abbrev Str := List Char

/-- Scores in centi-units: the Python float `x` is represented by the
integer `100 * x` (exact for every constant in the source). -/
abbrev Score := ℤ

/-- Python `str.lower()` (ASCII case folding suffices for this corpus). -/
def toLower (s : Str) : Str := s.map Char.toLower

/-- Python substring test `needle in hay`. -/
def isSub (needle : Str) : Str → Bool
  | [] => needle.isEmpty
  | c :: t => needle.isPrefixOf (c :: t) || isSub needle t

/-- Python whitespace (the `\s` class / `str.strip` default set, ASCII part). -/
def isPyWs (c : Char) : Bool :=
  c == ' ' || c == '\t' || c == '\n' || c == '\r' || c == '\x0b' || c == '\x0c'

/-- Python `str.strip()`. -/
def stripStr (s : Str) : Str :=
  ((s.dropWhile isPyWs).reverse.dropWhile isPyWs).reverse

def splitOnAux (sep : Char) : Str → Str → List Str
  | [], acc => [acc.reverse]
  | c :: t, acc =>
    if c == sep then acc.reverse :: splitOnAux sep t []
    else splitOnAux sep t (c :: acc)

/-- Python `str.split(sep)` for a one-character separator. -/
def pySplit (sep : Char) (s : Str) : List Str := splitOnAux sep s []

def splitWsAux : Str → Str → List Str
  | [], acc => if acc.isEmpty then [] else [acc.reverse]
  | c :: t, acc =>
    if isPyWs c then
      if acc.isEmpty then splitWsAux t [] else acc.reverse :: splitWsAux t []
    else splitWsAux t (c :: acc)

/-- Python `str.split()` (no argument: split on whitespace runs, no empties). -/
def pySplitWs (s : Str) : List Str := splitWsAux s []

def digitRunsAux : Str → Option Nat → List Nat
  | [], none => []
  | [], some n => [n]
  | c :: t, none =>
    if c.isDigit then digitRunsAux t (some (c.toNat - 48)) else digitRunsAux t none
  | c :: t, some n =>
    if c.isDigit then digitRunsAux t (some (n * 10 + (c.toNat - 48)))
    else n :: digitRunsAux t none

/-- Python `re.findall(r'\d+', s)` with each run read as an integer
(as `int(num_str)` does in `_ai_assisted_search`). -/
def digitRuns (s : Str) : List Nat := digitRunsAux s none

def replaceAllF : Nat → Str → Str → Str
  | 0, s, _ => s
  | _ + 1, [], _ => []
  | fuel + 1, c :: cs, pat =>
    if pat.isEmpty then c :: cs
    else if pat.isPrefixOf (c :: cs) then replaceAllF fuel ((c :: cs).drop pat.length) pat
    else c :: replaceAllF fuel cs pat

/-- Python `s.replace(pat, "")`: delete all non-overlapping occurrences of
`pat`, scanning left to right.  Structural recursion on a character-count
fuel (each step consumes at least one character, so `s.length` fuel is
exact); this keeps the definition kernel-evaluable. -/
def replaceAll (s pat : Str) : Str := replaceAllF s.length s pat

def hasNonWsHead : Str → Bool
  | [] => false
  | c :: _ => !isPyWs c

/-- Python `re.search(r'https?://[^\s]+', s)`, returning the matched text of
the leftmost match: the pattern matches at a position iff the literal scheme
prefix is present and at least one non-whitespace character follows `://`;
the greedy `[^\s]+` then extends the match to the first whitespace. -/
def findUrl : Str → Option Str
  | [] => none
  | c :: t =>
    if (("https://".data.isPrefixOf (c :: t)) && hasNonWsHead ((c :: t).drop 8)) ||
       (("http://".data.isPrefixOf (c :: t)) && hasNonWsHead ((c :: t).drop 7)) then
      some ((c :: t).takeWhile (fun ch => !isPyWs ch))
    else findUrl t

/-- One Q&A record.  The Python code reads the fields with
`item.get(key, "")`, so every field defaults to the empty string. -/
structure Record where
  question : String := ""
  category : String := ""
  keywords : String := ""
  short_answer : String := ""
  long_answer : String := ""
  when_to_seek_help : String := ""
  source : String := ""
  related_questions : String := ""
  tone : String := ""
deriving DecidableEq

/-- `key_phrases` list of `PostpartumRAGSystem._enhanced_search`. -/
def key_phrases_rag : List String :=
  ["low milk supply", "milk supply", "pump at work", "pumping at work",
   "postpartum bleeding", "hair loss", "c-section", "exercise after birth",
   "breastfeeding", "stitches", "period return", "diastasis recti",
   "night sweats", "hemorrhoids", "constipation", "perineal pain"]

/-- `important_words` list of `PostpartumRAGSystem._enhanced_search`. -/
def important_words : List String :=
  ["supply", "milk", "pump", "work", "bleeding", "exercise", "pain", "stitches"]

/-- The multi-word-match bonus of `_enhanced_search` (rag_system.py lines
150-154), embedded exactly as written: `if word_matches >= 2: score += 0.15
elif word_matches >= 3: score += 0.25` (centi-units: 15 and 25). -/
def multiBonus (wm : Nat) : Score :=
  if 2 ≤ wm then 15 else if 3 ≤ wm then 25 else 0

/-- Per-record score of `PostpartumRAGSystem._enhanced_search`
(rag_system.py lines 85-154): exact / containment / special-case /
phrase-tier + word-overlap ladder, on an uncapped scale topping at 2.0
(here 200 centi-units). -/
def scoreEnhanced (query : String) (item : Record) : Score :=
  let query_lower := toLower query.data
  let question := toLower item.question.data
  let keywords := toLower item.keywords.data
  let short_answer := toLower item.short_answer.data
  let long_answer := toLower item.long_answer.data
  let category := toLower item.category.data
  if query_lower = question then 200
  else if isSub query_lower question then 180
  else if isSub question query_lower then 160
  else if isSub "low milk supply".data query_lower ∧ isSub "low supply".data keywords then 150
  else
    let phraseScore := key_phrases_rag.foldl (fun sc p =>
      if isSub p.data query_lower then
        if isSub p.data question then max sc 94
        else if isSub p.data keywords then max sc 90
        else if isSub p.data short_answer then max sc 86
        else if isSub p.data long_answer then max sc 82
        else sc
      else sc) 0
    let query_words := (pySplitWs query_lower).filter (fun w => 3 < w.length)
    let sw := query_words.foldl (fun (acc : Score × Nat) w =>
      if isSub w question then
        if w ∈ important_words.map String.data then (acc.1 + 40, acc.2 + 1)
        else (acc.1 + 30, acc.2 + 1)
      else if isSub w keywords then (acc.1 + 25, acc.2 + 1)
      else if isSub w short_answer then (acc.1 + 15, acc.2 + 1)
      else if isSub w category then (acc.1 + 10, acc.2)
      else acc) (phraseScore, 0)
    sw.1 + multiBonus sw.2

/-- `key_phrases` list of `PostpartumKnowledgeBase._fallback_search`. -/
def key_phrases_kb : List String :=
  ["low milk supply", "milk supply", "pump at work", "pumping at work",
   "postpartum bleeding", "hair loss", "c-section", "exercise after birth",
   "breastfeeding", "stitches", "period return", "diastasis recti"]

/-- Per-record raw score of `PostpartumKnowledgeBase._fallback_search`
(knowledge_base.py lines 96-146), before the `min(score, 1.0)` cap that is
applied when the record is appended to the result list. -/
def scoreFallback (query : String) (item : Record) : Score :=
  let query_lower := toLower query.data
  let question := toLower item.question.data
  let keywords := toLower item.keywords.data
  let short_answer := toLower item.short_answer.data
  let long_answer := toLower item.long_answer.data
  if query_lower = question then 100
  else if isSub query_lower question ∨ isSub question query_lower then 95
  else
    let combined := question ++ " ".data ++ keywords ++ " ".data ++ short_answer
    let phraseScore := key_phrases_kb.foldl (fun sc p =>
      if isSub p.data query_lower ∧ isSub p.data combined then max sc 90 else sc) 0
    let query_words := (pySplitWs query_lower).filter (fun w => 3 < w.length)
    let sw := query_words.foldl (fun (acc : Score × Nat) w =>
      if isSub w question then (acc.1 + 30, acc.2 + 1)
      else if isSub w keywords then (acc.1 + 25, acc.2 + 1)
      else if isSub w short_answer then (acc.1 + 15, acc.2 + 1)
      else if isSub w long_answer then (acc.1 + 10, acc.2)
      else acc) (phraseScore, 0)
    let boosted := if 2 ≤ sw.2 then sw.1 + 20 else sw.1
    let category := toLower item.category.data
    if query_words.any (fun w => isSub w category) then boosted + 10 else boosted

/-- A scored candidate, the Python tuple `(item, score)`. -/
abbrev Cand := Record × Score

/-- Descending comparison used by `results.sort(key=lambda x: x[1],
reverse=True)`.  Python's sort is stable and `reverse=True` does not
perturb the order of equal keys, which `List.mergeSort` with this
relation reproduces. -/
def candLe (a b : Cand) : Bool := decide (b.2 ≤ a.2)

/-- `results.sort(key=lambda x: x[1], reverse=True)` as a pure function. -/
def sortDesc (l : List Cand) : List Cand := l.mergeSort candLe

/-- The candidate list built by the scoring loop of `_enhanced_search`
(rag_system.py lines 85-157): records in store order, a record kept only
when its score is positive. -/
def scoredList (query : String) (recs : List Record) : List Cand :=
  recs.filterMap (fun r =>
    let s := scoreEnhanced query r
    if 0 < s then some (r, s) else none)

/-- Sort-and-truncate, the tail of every search variant:
`results.sort(...); return results[:top_k]`. -/
def sortTruncate (l : List Cand) (top_k : Nat) : List Cand :=
  (sortDesc l).take top_k

/-- The purely lexical part of `_enhanced_search` (store scoring, sort,
truncate), i.e. its result when the AI-assisted step is not consulted. -/
def rank_local (query : String) (recs : List Record) (top_k : Nat) : List Cand :=
  sortTruncate (scoredList query recs) top_k

/-- The candidate list built by the scoring loop of `_fallback_search`
(knowledge_base.py lines 96-149): records in store order, capped at 1.0
(100) on append, kept only when the raw score is positive. -/
def fallbackScored (query : String) (recs : List Record) : List Cand :=
  recs.filterMap (fun r =>
    let s := scoreFallback query r
    if 0 < s then some (r, min s 100) else none)

/-- `PostpartumKnowledgeBase._fallback_search` (knowledge_base.py lines
88-153): score every record, sort descending, truncate. -/
def fallback_search (query : String) (recs : List Record) (top_k : Nat) : List Cand :=
  sortTruncate (fallbackScored query recs) top_k

/-- Python-dict insertion `d[k] = v` on an insertion-ordered association
list: replace the value in place if the key is present, else append. -/
def dictSet (d : List (String × Cand)) (k : String) (v : Cand) : List (String × Cand) :=
  match d with
  | [] => [(k, v)]
  | (k', v') :: t => if k' = k then (k', v) :: t else (k', v') :: dictSet t k v

/-- The AI-loop update of `_enhanced_search` (rag_system.py lines 172-179):
`combined[key] = (item, max(existing_score, ai_score))` when the key is
present (note the stored record becomes the remote item), plain insertion
otherwise. -/
def dictMax (d : List (String × Cand)) (k : String) (v : Cand) : List (String × Cand) :=
  match d with
  | [] => [(k, v)]
  | (k', v') :: t =>
    if k' = k then (k', (v.1, max v'.2 v.2)) :: t else (k', v') :: dictMax t k v

/-- The dedup key of the merge: `item.get("Question", "")`. -/
def qkey (p : Cand) : String := p.1.question

/-- The dict entry a candidate contributes. -/
def entry (p : Cand) : String × Cand := (qkey p, p)

/-- The `combined` dict of `_enhanced_search` (rag_system.py lines 166-179):
local candidates inserted first (keyed by `item.get("Question", "")`),
then remote candidates merged with `max` on the score. -/
def combine (locals remote : List Cand) : List (String × Cand) :=
  remote.foldl (fun d p => dictMax d (qkey p) p)
    (locals.foldl (fun d p => dictSet d (qkey p) p) [])

/-- The merge block of `_enhanced_search` (rag_system.py lines 166-184):
dict-merge the top-k local candidates with the remote candidates, sort the
values descending, truncate to top_k. -/
def merge_step (locals remote : List Cand) (top_k : Nat) : List Cand :=
  sortTruncate ((combine (locals.take top_k) remote).map Prod.snd) top_k

/-- `PostpartumRAGSystem._ai_assisted_search` (rag_system.py lines 188-230),
with the provider call abstracted by its observable response: `none` means
the call raised (caught, returning `[]`), `some t` is `response.text`.
The digits of `t` are read as 1-based indices; each in-range index
contributes the corresponding record at fixed confidence 0.75 (75). -/
def ai_assisted_search (resp : Option String) (data : List Record) (top_k : Nat) :
    List Cand :=
  match resp with
  | none => []
  | some t =>
    ((digitRuns t.data).take top_k).filterMap (fun n =>
      if n = 0 then none
      else match data.get? (n - 1) with
        | some r => some ((r, 75) : Cand)
        | none => none)

/-- `PostpartumRAGSystem._enhanced_search` (rag_system.py lines 76-186)
with the remote candidate list as an explicit argument: the AI-assisted
step is consulted only when the local list is empty or its top score is
below 0.7 (70), and only a non-empty remote list triggers the merge. -/
def enhanced_search (query : String) (recs : List Record) (top_k : Nat)
    (remote : List Cand) : List Cand :=
  let results := sortDesc (scoredList query recs)
  let consult := match results with
    | [] => true
    | (_, s) :: _ => decide (s < 70)
  if consult then
    if remote.isEmpty then results.take top_k
    else merge_step results remote top_k
  else results.take top_k

/-- `_enhanced_search` composed with `_ai_assisted_search` on the same
record store and top_k, as `search` runs them. -/
def enhanced_search_full (query : String) (recs : List Record) (top_k : Nat)
    (resp : Option String) : List Cand :=
  enhanced_search query recs top_k (ai_assisted_search resp recs top_k)

/-- `ChatInterface._parse_related_questions` (chat_interface.py lines
89-96): falsy guard, split on semicolons, strip each piece, keep the
truthy (non-empty) ones, first five. -/
def parse_related_questions (s : String) : List String :=
  if s = "" then []
  else ((((pySplit ';' s.data).map stripStr).filter (fun w => !w.isEmpty)).take 5).map
    (fun l => (⟨l⟩ : String))

/-- The source-citation section of `ChatInterface._format_response`
(chat_interface.py lines 72-81): when a URL is found, link to it with the
label obtained by deleting the URL and every en dash from the source and
stripping; otherwise emit the raw source. -/
def source_section (source : String) : String :=
  match findUrl source.data with
  | some url =>
    let source_name := stripStr (replaceAll (replaceAll source.data url) "–".data)
    "**📚 Source:** [" ++ (⟨source_name⟩ : String) ++ "](" ++ (⟨url⟩ : String) ++ ")"
  | none => "**📚 Source:** " ++ source

/-- The section list built by `ChatInterface._format_response`
(chat_interface.py lines 55-87); each section is emitted only when the
underlying field is truthy (non-empty). -/
def response_parts (r : Record) : List String :=
  (if r.short_answer = "" then [] else ["**Quick Answer:** " ++ r.short_answer]) ++
  (if r.long_answer = "" then [] else ["**Detailed Information:** " ++ r.long_answer]) ++
  (if r.when_to_seek_help = "" then []
   else ["**⚠️ When to Seek Medical Help:** " ++ r.when_to_seek_help]) ++
  (if r.source = "" then [] else [source_section r.source]) ++
  (if r.category = "" then [] else ["**📂 Category:** " ++ r.category])

/-- `ChatInterface._format_response`: the sections joined by blank lines. -/
def format_response (r : Record) : String :=
  String.intercalate "\n\n" (response_parts r)

/-- The response value returned by `ChatInterface.get_response`: either the
structured composition of a record, a provider-generated conversational
answer seeded with a matched record, a general provider-generated
conversational answer, or a fixed literal text. -/
inductive Resp
  | structured (r : Record)
  | convWithRecord (query : String) (r : Record)
  | convGeneral (query : String)
  | plainText (s : String)
deriving DecidableEq

/-- The metadata dict returned by `ChatInterface.get_response`: the
two-key dict of the no-result / low-confidence paths, the full dict of the
strong and medium paths, or the error dict of the except-path. -/
inductive Meta
  | minimal (confidence : Score) (conversational : Bool)
  | full (confidence : Score) (category source : String)
      (related : List String) (whenToSeekHelp : String) (conversational : Bool)
  | fault (e : String)
deriving DecidableEq

/-- The confidence-gate body of `ChatInterface.get_response`
(chat_interface.py lines 14-45), as a function of the search results. -/
def get_response (query : String) (results : List Cand) : Resp × Meta :=
  match results with
  | [] => (.convGeneral query, .minimal 0 true)
  | (best, confidence) :: _ =>
    if 70 ≤ confidence then
      (.structured best,
        .full confidence best.category best.source
          (parse_related_questions best.related_questions)
          best.when_to_seek_help (decide (confidence < 70)))
    else if 30 ≤ confidence then
      (.convWithRecord query best,
        .full confidence best.category best.source
          (parse_related_questions best.related_questions)
          best.when_to_seek_help (decide (confidence < 70)))
    else
      (.convGeneral query, .minimal confidence true)

/-- The fixed supportive text of the except-branch of
`ChatInterface.get_response` (chat_interface.py lines 48-52). -/
def errorResponseText : String :=
  "I'm here to help with your postpartum journey. Could you tell me more about " ++
  "what you're experiencing? If you have urgent concerns, please don't hesitate " ++
  "to contact your healthcare provider."

/-- `ChatInterface.get_response` including its `try/except` boundary: an
exception anywhere inside (modelled as `Except.error e` from the search
pipeline) is converted to the fixed supportive text plus an error
metadata entry. -/
def get_response_safe (query : String) (outcome : Except String (List Cand)) :
    Resp × Meta :=
  match outcome with
  | .error e => (.plainText errorResponseText, .fault e)
  | .ok results => get_response query results

/-! ### Helper lemmas on the descending stable sort -/

lemma candLe_trans : ∀ (a b c : Cand), candLe a b → candLe b c → candLe a c := by
  intro a b c hab hbc
  simp only [candLe, decide_eq_true_eq] at *
  exact le_trans hbc hab

lemma candLe_total : ∀ (a b : Cand), candLe a b || candLe b a := by
  intro a b
  simp only [candLe, Bool.or_eq_true, decide_eq_true_eq]
  exact le_total b.2 a.2

lemma sortDesc_pairwise (l : List Cand) :
    (sortDesc l).Pairwise (fun a b => b.2 ≤ a.2) := by
  have h := List.sorted_mergeSort candLe_trans candLe_total l
  exact h.imp (fun hab => by simpa [candLe] using hab)

lemma sortDesc_perm (l : List Cand) : List.Perm (sortDesc l) l :=
  List.mergeSort_perm l candLe

lemma pairwise_filter_score (l : List Cand) (s : Score) :
    (l.filter (fun c => c.2 == s)).Pairwise (fun a b => candLe a b) := by
  apply List.pairwise_of_forall_mem_list
  intro a ha b hb
  have ha' := (List.mem_filter.mp ha).2
  have hb' := (List.mem_filter.mp hb).2
  simp only [beq_iff_eq] at ha' hb'
  simp [candLe, ha', hb']

/-- Stability of the sort on each score class: candidates of equal score
keep their original relative order. -/
lemma sortDesc_filter_score (l : List Cand) (s : Score) :
    (sortDesc l).filter (fun c => c.2 == s) = l.filter (fun c => c.2 == s) := by
  have h3 : List.Sublist (l.filter (fun c => c.2 == s)) (sortDesc l) :=
    List.sublist_mergeSort candLe_trans candLe_total
      (pairwise_filter_score l s) (List.filter_sublist l)
  have h4 := h3.filter (fun c => c.2 == s)
  simp only [List.filter_filter, Bool.and_self] at h4
  have h5 : List.Perm ((sortDesc l).filter (fun c => c.2 == s)) (l.filter (fun c => c.2 == s)) :=
    (sortDesc_perm l).filter _
  exact (h4.eq_of_length h5.length_eq.symm).symm

lemma sortTruncate_length (l : List Cand) (k : Nat) :
    (sortTruncate l k).length ≤ k :=
  List.length_take_le k (sortDesc l)

lemma sortTruncate_pairwise (l : List Cand) (k : Nat) :
    (sortTruncate l k).Pairwise (fun a b => b.2 ≤ a.2) :=
  (sortDesc_pairwise l).sublist (List.take_sublist k (sortDesc l))

lemma sortTruncate_filter_score (l : List Cand) (k : Nat) (s : Score) :
    List.Sublist ((sortTruncate l k).filter (fun c => c.2 == s))
      (l.filter (fun c => c.2 == s)) := by
  have h := (List.take_sublist k (sortDesc l)).filter (fun c => c.2 == s)
  rwa [sortDesc_filter_score] at h

/-! ### Helper lemmas on the Python-dict merge -/

lemma dictSet_fresh (d : List (String × Cand)) (k : String) (v : Cand)
    (h : k ∉ d.map Prod.fst) : dictSet d k v = d ++ [(k, v)] := by
  induction d with
  | nil => rfl
  | cons hd t ih =>
    obtain ⟨k', v'⟩ := hd
    simp only [List.map_cons, List.mem_cons, not_or] at h
    have hne : ¬ k' = k := fun hh => h.1 hh.symm
    simp only [dictSet, if_neg hne, List.cons_append]
    rw [ih h.2]

lemma dictMax_fresh (d : List (String × Cand)) (k : String) (v : Cand)
    (h : k ∉ d.map Prod.fst) : dictMax d k v = d ++ [(k, v)] := by
  induction d with
  | nil => rfl
  | cons hd t ih =>
    obtain ⟨k', v'⟩ := hd
    simp only [List.map_cons, List.mem_cons, not_or] at h
    have hne : ¬ k' = k := fun hh => h.1 hh.symm
    simp only [dictMax, if_neg hne, List.cons_append]
    rw [ih h.2]

lemma keys_dictSet (d : List (String × Cand)) (k : String) (v : Cand) :
    (dictSet d k v).map Prod.fst =
      if k ∈ d.map Prod.fst then d.map Prod.fst else d.map Prod.fst ++ [k] := by
  induction d with
  | nil => rfl
  | cons hd t ih =>
    obtain ⟨k', v'⟩ := hd
    simp only [dictSet, List.map_cons]
    by_cases hk : k' = k
    · subst hk
      simp
    · rw [if_neg hk, List.map_cons, ih]
      have hne : ¬ k = k' := fun hh => hk hh.symm
      by_cases hm : k ∈ t.map Prod.fst
      · rw [if_pos hm, if_pos (by simp only [List.mem_cons]; exact Or.inr hm)]
      · rw [if_neg hm,
          if_neg (by simp only [List.mem_cons, not_or]; exact ⟨hne, hm⟩),
          List.cons_append]

lemma keys_dictMax (d : List (String × Cand)) (k : String) (v : Cand) :
    (dictMax d k v).map Prod.fst =
      if k ∈ d.map Prod.fst then d.map Prod.fst else d.map Prod.fst ++ [k] := by
  induction d with
  | nil => rfl
  | cons hd t ih =>
    obtain ⟨k', v'⟩ := hd
    simp only [dictMax, List.map_cons]
    by_cases hk : k' = k
    · subst hk
      simp
    · rw [if_neg hk, List.map_cons, ih]
      have hne : ¬ k = k' := fun hh => hk hh.symm
      by_cases hm : k ∈ t.map Prod.fst
      · rw [if_pos hm, if_pos (by simp only [List.mem_cons]; exact Or.inr hm)]
      · rw [if_neg hm,
          if_neg (by simp only [List.mem_cons, not_or]; exact ⟨hne, hm⟩),
          List.cons_append]

lemma nodup_keys_dictSet (d : List (String × Cand)) (k : String) (v : Cand)
    (h : (d.map Prod.fst).Nodup) : ((dictSet d k v).map Prod.fst).Nodup := by
  rw [keys_dictSet]
  by_cases hm : k ∈ d.map Prod.fst
  · simpa [hm] using h
  · rw [if_neg hm]
    refine List.Nodup.append h (List.nodup_singleton k) ?_
    intro a ha hb
    rw [List.mem_singleton] at hb
    subst hb
    exact hm ha

lemma nodup_keys_dictMax (d : List (String × Cand)) (k : String) (v : Cand)
    (h : (d.map Prod.fst).Nodup) : ((dictMax d k v).map Prod.fst).Nodup := by
  rw [keys_dictMax]
  by_cases hm : k ∈ d.map Prod.fst
  · simpa [hm] using h
  · rw [if_neg hm]
    refine List.Nodup.append h (List.nodup_singleton k) ?_
    intro a ha hb
    rw [List.mem_singleton] at hb
    subst hb
    exact hm ha

lemma nodup_keys_combine (locals remote : List Cand) :
    ((combine locals remote).map Prod.fst).Nodup := by
  unfold combine
  have base : ∀ (L : List Cand) (d : List (String × Cand)),
      (d.map Prod.fst).Nodup →
      ((L.foldl (fun d p => dictSet d (qkey p) p) d).map Prod.fst).Nodup := by
    intro L
    induction L with
    | nil => intro d h; simpa using h
    | cons p t ih =>
      intro d h
      exact ih _ (nodup_keys_dictSet d (qkey p) p h)
  have step : ∀ (R : List Cand) (d : List (String × Cand)),
      (d.map Prod.fst).Nodup →
      ((R.foldl (fun d p => dictMax d (qkey p) p) d).map Prod.fst).Nodup := by
    intro R
    induction R with
    | nil => intro d h; simpa using h
    | cons p t ih =>
      intro d h
      exact ih _ (nodup_keys_dictMax d (qkey p) p h)
  exact step remote _ (base locals [] (by simp))

lemma foldl_dictSet_fresh (L : List Cand) :
    ∀ (d : List (String × Cand)), (L.map qkey).Nodup →
      (∀ p ∈ L, qkey p ∉ d.map Prod.fst) →
      L.foldl (fun d p => dictSet d (qkey p) p) d = d ++ L.map entry := by
  induction L with
  | nil => intro d _ _; simp
  | cons p t ih =>
    intro d hnd hfresh
    simp only [List.map_cons, List.nodup_cons] at hnd
    have hp : qkey p ∉ d.map Prod.fst := hfresh p (List.mem_cons_self p t)
    simp only [List.foldl_cons]
    rw [dictSet_fresh d (qkey p) p hp, ih (d ++ [(qkey p, p)]) hnd.2]
    · simp [entry]
    · intro x hx
      simp only [List.map_append, List.mem_append, not_or]
      refine ⟨hfresh x (List.mem_cons_of_mem p hx), ?_⟩
      simp only [List.map_cons, List.map_nil, List.mem_singleton]
      intro hh
      exact hnd.1 (hh ▸ List.mem_map_of_mem qkey hx)

lemma foldl_dictMax_fresh (L : List Cand) :
    ∀ (d : List (String × Cand)), (L.map qkey).Nodup →
      (∀ p ∈ L, qkey p ∉ d.map Prod.fst) →
      L.foldl (fun d p => dictMax d (qkey p) p) d = d ++ L.map entry := by
  induction L with
  | nil => intro d _ _; simp
  | cons p t ih =>
    intro d hnd hfresh
    simp only [List.map_cons, List.nodup_cons] at hnd
    have hp : qkey p ∉ d.map Prod.fst := hfresh p (List.mem_cons_self p t)
    simp only [List.foldl_cons]
    rw [dictMax_fresh d (qkey p) p hp, ih (d ++ [(qkey p, p)]) hnd.2]
    · simp [entry]
    · intro x hx
      simp only [List.map_append, List.mem_append, not_or]
      refine ⟨hfresh x (List.mem_cons_of_mem p hx), ?_⟩
      simp only [List.map_cons, List.map_nil, List.mem_singleton]
      intro hh
      exact hnd.1 (hh ▸ List.mem_map_of_mem qkey hx)

lemma lookup_cons_eq (a k : String) (v : Cand) (t : List (String × Cand)) :
    List.lookup a ((k, v) :: t) = if a = k then some v else List.lookup a t := by
  by_cases h : a = k
  · subst h
    simp [List.lookup_cons]
  · simp [List.lookup_cons, show (a == k) = false from beq_eq_false_iff_ne.mpr h, h]

lemma lookup_entries_self (L : List Cand) (p : Cand) :
    (L.map qkey).Nodup → p ∈ L → List.lookup (qkey p) (L.map entry) = some p := by
  induction L with
  | nil => intro _ hp; cases hp
  | cons q t ih =>
    intro hnd hp
    simp only [List.map_cons, List.nodup_cons] at hnd
    rcases List.mem_cons.mp hp with hq | ht
    · subst hq
      simp [entry, lookup_cons_eq]
    · have hne : qkey p ≠ qkey q := by
        intro hh
        exact hnd.1 (hh ▸ List.mem_map_of_mem qkey ht)
      simp only [List.map_cons, entry]
      rw [lookup_cons_eq, if_neg hne]
      exact ih hnd.2 ht

lemma lookup_dictMax_self (d : List (String × Cand)) (k : String) (v w : Cand)
    (h : List.lookup k d = some w) :
    List.lookup k (dictMax d k v) = some (v.1, max w.2 v.2) := by
  induction d with
  | nil => simp at h
  | cons hd t ih =>
    obtain ⟨k', v'⟩ := hd
    by_cases hk : k = k'
    · subst hk
      rw [lookup_cons_eq, if_pos rfl] at h
      cases h
      simp only [dictMax, eq_self_iff_true, if_true]
      rw [lookup_cons_eq, if_pos rfl]
    · have h' : List.lookup k t = some w := by
        rwa [lookup_cons_eq, if_neg hk] at h
      have hk' : ¬ k' = k := fun hh => hk hh.symm
      simp only [dictMax, if_neg hk']
      rw [lookup_cons_eq, if_neg hk]
      exact ih h'

lemma lookup_dictMax_ne (d : List (String × Cand)) (k k' : String) (v : Cand)
    (h : k ≠ k') : List.lookup k (dictMax d k' v) = List.lookup k d := by
  induction d with
  | nil =>
    simp only [dictMax]
    rw [lookup_cons_eq, if_neg h]
  | cons hd t ih =>
    obtain ⟨k'', v''⟩ := hd
    by_cases hk : k'' = k'
    · subst hk
      simp only [dictMax, eq_self_iff_true, if_true]
      rw [lookup_cons_eq, lookup_cons_eq, if_neg h, if_neg h]
    · simp only [dictMax, if_neg hk]
      rw [lookup_cons_eq, lookup_cons_eq]
      by_cases hkk : k = k''
      · rw [if_pos hkk, if_pos hkk]
      · rw [if_neg hkk, if_neg hkk]
        exact ih

lemma lookup_foldl_dictMax_not_mem (R : List Cand) :
    ∀ (d : List (String × Cand)) (k : String), (∀ p ∈ R, qkey p ≠ k) →
    List.lookup k (R.foldl (fun d p => dictMax d (qkey p) p) d) = List.lookup k d := by
  induction R with
  | nil => intro d k _; rfl
  | cons p t ih =>
    intro d k h
    simp only [List.foldl_cons]
    rw [ih _ k (fun x hx => h x (List.mem_cons_of_mem p hx)),
      lookup_dictMax_ne d k (qkey p) p (fun hh => h p (List.mem_cons_self p t) hh.symm)]

/-- When the same question key occurs in the local and the remote list
(keys unique within each), the merged dict holds the remote item with the
maximum of the two scores. -/
lemma combine_lookup_both (L R : List Cand) (key : String) (rl rr : Record)
    (sl sr : Score)
    (hL : (L.map qkey).Nodup) (hR : (R.map qkey).Nodup)
    (hl : (rl, sl) ∈ L) (hkl : rl.question = key)
    (hr : (rr, sr) ∈ R) (hkr : rr.question = key) :
    List.lookup key (combine L R) = some (rr, max sl sr) := by
  obtain ⟨R1, R2, hsplit⟩ := List.append_of_mem hr
  subst hsplit
  have hqr : qkey (rr, sr) = key := hkr
  rw [List.map_append, List.map_cons, hqr, List.nodup_append] at hR
  obtain ⟨hR1, hR2c, hdisj⟩ := hR
  have hkeyR2 : key ∉ R2.map qkey := (List.nodup_cons.mp hR2c).1
  have hkeyR1 : key ∉ R1.map qkey := fun hmem =>
    hdisj hmem (List.mem_cons_self key (R2.map qkey))
  have hfreshR1 : ∀ p ∈ R1, qkey p ≠ key := by
    intro p hp hh
    exact hkeyR1 (hh ▸ List.mem_map_of_mem qkey hp)
  have hfreshR2 : ∀ p ∈ R2, qkey p ≠ key := by
    intro p hp hh
    exact hkeyR2 (hh ▸ List.mem_map_of_mem qkey hp)
  have hd0 : L.foldl (fun d p => dictSet d (qkey p) p) [] = L.map entry :=
    foldl_dictSet_fresh L [] hL (by simp)
  have hlook0 : List.lookup key (L.map entry) = some (rl, sl) := by
    have h := lookup_entries_self L (rl, sl) hL hl
    rwa [show qkey (rl, sl) = key from hkl] at h
  unfold combine
  rw [hd0, List.foldl_append, List.foldl_cons,
    lookup_foldl_dictMax_not_mem R2 _ key hfreshR2, hqr,
    lookup_dictMax_self _ key (rr, sr) (rl, sl)
      (by rw [lookup_foldl_dictMax_not_mem R1 _ key hfreshR1]; exact hlook0)]

lemma dictMax_mem_self (d : List (String × Cand)) (k : String) (v : Cand)
    (hnd : (d.map Prod.fst).Nodup) (hmem : (k, v) ∈ d) :
    dictMax d k v = d := by
  induction d with
  | nil => cases hmem
  | cons hd t ih =>
    obtain ⟨k', w⟩ := hd
    simp only [List.map_cons, List.nodup_cons] at hnd
    by_cases hk : k' = k
    · subst hk
      have hvw : w = v := by
        rcases List.mem_cons.mp hmem with hh | ht
        · exact (Prod.mk.injEq _ _ _ _ ▸ hh).2.symm
        · exact absurd (List.mem_map_of_mem Prod.fst ht) hnd.1
      subst hvw
      simp [dictMax, max_self]
    · have ht : (k, v) ∈ t := by
        rcases List.mem_cons.mp hmem with hh | ht
        · exact absurd (congrArg Prod.fst hh).symm hk
        · exact ht
      simp only [dictMax, if_neg hk]
      rw [ih hnd.2 ht]

lemma foldl_dictMax_mem_self (Y : List Cand) :
    ∀ (d : List (String × Cand)), (d.map Prod.fst).Nodup →
      (∀ p ∈ Y, (qkey p, p) ∈ d) →
      Y.foldl (fun d p => dictMax d (qkey p) p) d = d := by
  induction Y with
  | nil => intro d _ _; rfl
  | cons p t ih =>
    intro d hnd hmem
    simp only [List.foldl_cons]
    rw [dictMax_mem_self d (qkey p) p hnd (hmem p (List.mem_cons_self p t))]
    exact ih d hnd (fun x hx => hmem x (List.mem_cons_of_mem p hx))

lemma keys_map_entry (X : List Cand) : (X.map entry).map Prod.fst = X.map qkey := by
  rw [List.map_map]
  rfl

/-- Folding the max-merge over `Y ++ Z` starting from the dict of `Y`
leaves the `Y` entries untouched (same record, `max s s = s`) and appends
the fresh `Z` entries, provided all keys are distinct. -/
lemma foldl_dictMax_split (Y Z : List Cand)
    (hnd : ((Y ++ Z).map qkey).Nodup) :
    List.foldl (fun d p => dictMax d (qkey p) p) (Y.map entry) (Y ++ Z) =
      (Y ++ Z).map entry := by
  rw [List.map_append, List.nodup_append] at hnd
  obtain ⟨hY, hZ, hdisj⟩ := hnd
  rw [List.foldl_append,
    foldl_dictMax_mem_self Y (Y.map entry)
      (by rw [keys_map_entry]; exact hY)
      (fun p hp => List.mem_map_of_mem entry hp),
    foldl_dictMax_fresh Z (Y.map entry) hZ
      (by
        intro p hp hmem
        rw [keys_map_entry] at hmem
        exact hdisj hmem (List.mem_map_of_mem qkey hp)),
    ← List.map_append]

/-- Merging a duplicate-free candidate list with itself rebuilds exactly
that list inside the dict (the code truncates the local copy to `top_k`
before inserting; the remote pass reinserts the tail unchanged). -/
lemma combine_self_take (X : List Cand) (k : Nat) (hX : (X.map qkey).Nodup) :
    combine (X.take k) X = X.map entry := by
  have htake : (X.take k).map qkey = (X.map qkey).take k := List.map_take ..
  have hndtake : ((X.take k).map qkey).Nodup := by
    rw [htake]
    exact hX.sublist (List.take_sublist k (X.map qkey))
  have hd0 : (X.take k).foldl (fun d p => dictSet d (qkey p) p) [] =
      (X.take k).map entry :=
    foldl_dictSet_fresh (X.take k) [] hndtake (by simp)
  have h2 := foldl_dictMax_split (X.take k) (X.drop k)
    (by rw [List.take_append_drop]; exact hX)
  rw [List.take_append_drop] at h2
  unfold combine
  rw [hd0]
  exact h2

/-! ### Claim theorems -/

/-- C1: Confidence gate routing of `ChatInterface.get_response`: with no
candidate the general conversational response is returned with
`conversational=true` metadata; a top score `s ≥ 0.7` (70) yields the
structured answer with non-conversational full metadata; `0.3 ≤ s < 0.7`
yields the conversational answer seeded with the matched record; `s < 0.3`
yields the general conversational response with `conversational=true`
metadata; and a top score of exactly 0.65 (65) routes to the MEDIUM
(conversational-with-record) branch, not the structured one. -/
theorem confidence_gate_routing :
    (∀ q, get_response q [] = (.convGeneral q, .minimal 0 true)) ∧
    (∀ q r s rest, 70 ≤ s →
      get_response q ((r, s) :: rest) =
        (.structured r,
          .full s r.category r.source (parse_related_questions r.related_questions)
            r.when_to_seek_help false)) ∧
    (∀ q r s rest, 30 ≤ s → s < 70 →
      (get_response q ((r, s) :: rest)).1 = .convWithRecord q r) ∧
    (∀ q r s rest, s < 30 →
      get_response q ((r, s) :: rest) = (.convGeneral q, .minimal s true)) ∧
    (∀ q r rest, (get_response q ((r, 65) :: rest)).1 = .convWithRecord q r) := by
  refine ⟨fun q => rfl, ?_, ?_, ?_, ?_⟩
  · intro q r s rest h
    simp only [get_response]
    rw [if_pos h, decide_eq_false (not_lt.mpr h)]
  · intro q r s rest h1 h2
    simp only [get_response]
    rw [if_neg (not_le.mpr h2), if_pos h1]
  · intro q r s rest h
    have h7 : ¬ 70 ≤ s := not_le.mpr (h.trans_le (by norm_num))
    have h3 : ¬ 30 ≤ s := not_le.mpr h
    simp only [get_response]
    rw [if_neg h7, if_neg h3]
  · intro q r rest
    simp only [get_response]
    rw [if_neg (by norm_num), if_pos (by norm_num)]

/-- C1 witness: the gate evaluated at scores 80, 65 and 10. -/
theorem confidence_gate_routing_witness :
    get_response "q" [({ question := "a" }, 80)] =
      (.structured { question := "a" }, .full 80 "" "" [] "" false) ∧
    (get_response "q" [({ question := "a" }, 65)]).1 =
      .convWithRecord "q" { question := "a" } ∧
    get_response "q" [({ question := "a" }, 10)] = (.convGeneral "q", .minimal 10 true) :=
  ⟨confidence_gate_routing.2.1 "q" { question := "a" } 80 [] (by norm_num),
   confidence_gate_routing.2.2.2.2 "q" { question := "a" } [],
   confidence_gate_routing.2.2.2.1 "q" { question := "a" } 10 [] (by norm_num)⟩

/-- C2 counterexample: neither scorer trims the query.  The query `" hi"`
trims (case-insensitively) to the record question `"hi"`, yet the enhanced
scorer assigns 1.6 (160, the containment tier), not the top constant 2.0
(200), and the capped fallback scorer assigns 0.95 (95), not 1.0 (100). -/
theorem exact_match_trim_cex :
    stripStr (toLower " hi".data) = toLower "hi".data ∧
    scoreEnhanced " hi" { question := "hi" } = 160 ∧
    scoreEnhanced " hi" { question := "hi" } ≠ 200 ∧
    min (scoreFallback " hi" { question := "hi" }) 100 = 95 := by decide

/-- C2 (amended): for every query whose lowercased form equals the
lowercased record question (the code applies no trimming), the enhanced
scorer assigns the fixed top constant 2.0 (200) and the capped fallback
scorer assigns its top constant 1.0 (100); in particular every record
self-match `score(R.question, R)` attains the top constant. -/
theorem exact_match_top_score :
    (∀ (q : String) (r : Record), toLower q.data = toLower r.question.data →
      scoreEnhanced q r = 200 ∧ min (scoreFallback q r) 100 = 100) ∧
    (∀ r : Record, scoreEnhanced r.question r = 200 ∧
      min (scoreFallback r.question r) 100 = 100) := by
  have main : ∀ (q : String) (r : Record), toLower q.data = toLower r.question.data →
      scoreEnhanced q r = 200 ∧ min (scoreFallback q r) 100 = 100 := by
    intro q r h
    constructor
    · simp [scoreEnhanced, h]
    · simp [scoreFallback, h]
  exact ⟨main, fun r => main r.question r rfl⟩

/-- C2 witness: a case-insensitive self-match. -/
theorem exact_match_top_score_witness :
    scoreEnhanced "HI" { question := "hi" } = 200 ∧
    min (scoreFallback "HI" { question := "hi" }) 100 = 100 :=
  exact_match_top_score.1 "HI" { question := "hi" } (by decide)

/-- C3: Ranker contract for both lexical variants: the output has length
at most `top_k`, is sorted non-increasingly by score, and candidates of
equal score appear in their original record-store order (the filtered
output on each score class is a sublist of the store-ordered scored
list). -/
theorem ranker_contract :
    (∀ q recs k, (rank_local q recs k).length ≤ k) ∧
    (∀ q recs k, (rank_local q recs k).Pairwise (fun a b => b.2 ≤ a.2)) ∧
    (∀ q recs k s, List.Sublist ((rank_local q recs k).filter (fun c => c.2 == s))
      ((scoredList q recs).filter (fun c => c.2 == s))) ∧
    (∀ q recs k, (fallback_search q recs k).length ≤ k) ∧
    (∀ q recs k, (fallback_search q recs k).Pairwise (fun a b => b.2 ≤ a.2)) ∧
    (∀ q recs k s, List.Sublist ((fallback_search q recs k).filter (fun c => c.2 == s))
      ((fallbackScored q recs).filter (fun c => c.2 == s))) :=
  ⟨fun q recs k => sortTruncate_length _ k,
   fun q recs k => sortTruncate_pairwise _ k,
   fun q recs k s => sortTruncate_filter_score _ k s,
   fun q recs k => sortTruncate_length _ k,
   fun q recs k => sortTruncate_pairwise _ k,
   fun q recs k s => sortTruncate_filter_score _ k s⟩

lemma enhanced_search_cases (q : String) (recs : List Record) (k : Nat)
    (remote : List Cand) :
    enhanced_search q recs k remote = rank_local q recs k ∨
    enhanced_search q recs k remote =
      merge_step (sortDesc (scoredList q recs)) remote k := by
  unfold enhanced_search
  cases hres : sortDesc (scoredList q recs) with
  | nil =>
    cases remote with
    | nil => left; simp [rank_local, sortTruncate, hres]
    | cons p t => right; simp [hres]
  | cons hd rest =>
    obtain ⟨r, s⟩ := hd
    by_cases hs : s < 70
    · cases remote with
      | nil => left; simp [rank_local, sortTruncate, hres, hs]
      | cons p t => right; simp [hres, hs]
    · left
      simp [rank_local, sortTruncate, hres, hs]

/-- C4: External-match merge of `_enhanced_search`: the remote list is
consulted only when the local ranked list is empty or its top score is
below 0.7 (70); when consulted, local and remote candidates are merged
into a dict keyed by the exact question string (so the output keys are
duplicate-free), a question present in both lists keeps the maximum of
the two scores, and the merged result is sorted descending and truncated
to `top_k`. -/
theorem external_match_merge :
    (∀ q recs k remote r s rest,
      sortDesc (scoredList q recs) = (r, s) :: rest → 70 ≤ s →
      enhanced_search q recs k remote = ((r, s) :: rest).take k) ∧
    (∀ q recs k remote r s rest,
      sortDesc (scoredList q recs) = (r, s) :: rest → s < 70 → remote ≠ [] →
      enhanced_search q recs k remote = merge_step ((r, s) :: rest) remote k) ∧
    (∀ q recs k remote, sortDesc (scoredList q recs) = [] → remote ≠ [] →
      enhanced_search q recs k remote = merge_step [] remote k) ∧
    (∀ L R, ((combine L R).map Prod.fst).Nodup) ∧
    (∀ L R key rl rr sl sr, (L.map qkey).Nodup → (R.map qkey).Nodup →
      (rl, sl) ∈ L → rl.question = key → (rr, sr) ∈ R → rr.question = key →
      List.lookup key (combine L R) = some (rr, max sl sr)) ∧
    (∀ q recs k remote, (enhanced_search q recs k remote).length ≤ k ∧
      (enhanced_search q recs k remote).Pairwise (fun a b => b.2 ≤ a.2)) := by
  refine ⟨?_, ?_, ?_, nodup_keys_combine, ?_, ?_⟩
  · intro q recs k remote r s rest h hs
    have hd : decide (s < 70) = false := decide_eq_false (not_lt.mpr hs)
    simp [enhanced_search, h, hd]
  · intro q recs k remote r s rest h hs hne
    have hd : decide (s < 70) = true := decide_eq_true hs
    cases remote with
    | nil => exact absurd rfl hne
    | cons p t =>
      rw [← h]
      simp [enhanced_search, h, hd]
  · intro q recs k remote h hne
    cases remote with
    | nil => exact absurd rfl hne
    | cons p t => simp [enhanced_search, h]
  · intro L R key rl rr sl sr hL hR hl hkl hr hkr
    exact combine_lookup_both L R key rl rr sl sr hL hR hl hkl hr hkr
  · intro q recs k remote
    rcases enhanced_search_cases q recs k remote with h | h <;> rw [h]
    · exact ⟨sortTruncate_length _ _, sortTruncate_pairwise _ _⟩
    · exact ⟨sortTruncate_length _ _, sortTruncate_pairwise _ _⟩

/-- C4 witness: a strong local match ignores the remote list, and a key
present in both lists keeps the maximal score (and the remote item). -/
theorem external_match_merge_witness :
    enhanced_search "hi" [{ question := "hi" }] 3 [({ question := "zz" }, 10)] =
      [({ question := "hi" }, 200)] ∧
    List.lookup "a"
      (combine [({ question := "a" }, 50)] [({ question := "a", category := "c" }, 75)]) =
      some ({ question := "a", category := "c" }, 75) := by
  constructor
  · have h1 : scoredList "hi" [{ question := "hi" }] = [({ question := "hi" }, 200)] := by
      decide
    have h : sortDesc (scoredList "hi" [{ question := "hi" }]) =
        [({ question := "hi" }, 200)] := by
      rw [h1]
      simp [sortDesc]
    have h2 := external_match_merge.1 "hi" [{ question := "hi" }] 3
      [({ question := "zz" }, 10)] { question := "hi" } 200 [] h (by norm_num)
    simpa using h2
  · have h2 := external_match_merge.2.2.2.2.1 [({ question := "a" }, 50)]
      [({ question := "a", category := "c" }, 75)] "a"
      { question := "a" } { question := "a", category := "c" } 50 75
      (by decide) (by decide) (by decide) rfl (by decide) rfl
    have hm : max (50 : Score) 75 = 75 := by decide
    rwa [hm] at h2

/-- C5: Provider-failure degradation: an exception during the provider
call yields an empty remote list; a provider response whose digit runs
contain no valid in-range 1-based index yields an empty remote list; with
an empty remote list the search degrades to the local lexical results
alone; and with an empty local list as well the search returns `[]`. -/
theorem provider_failure_degradation :
    (∀ data k, ai_assisted_search none data k = []) ∧
    (∀ t data k, (∀ n ∈ digitRuns t.data, n = 0 ∨ data.length < n) →
      ai_assisted_search (some t) data k = []) ∧
    (∀ q recs k, enhanced_search q recs k [] = rank_local q recs k) ∧
    (∀ q recs k, scoredList q recs = [] →
      enhanced_search_full q recs k none = []) := by
  have h3 : ∀ q recs k, enhanced_search q recs k [] = rank_local q recs k := by
    intro q recs k
    cases hres : sortDesc (scoredList q recs) with
    | nil => simp [enhanced_search, rank_local, sortTruncate, hres]
    | cons hd rest =>
      obtain ⟨r, s⟩ := hd
      by_cases hs : s < 70
      · simp [enhanced_search, rank_local, sortTruncate, hres, hs]
      · simp [enhanced_search, rank_local, sortTruncate, hres, hs]
  refine ⟨fun data k => rfl, ?_, h3, ?_⟩
  · intro t data k h
    unfold ai_assisted_search
    apply List.filterMap_eq_nil.mpr
    intro n hn
    have hmem : n ∈ digitRuns t.data := List.take_subset k _ hn
    by_cases hn0 : n = 0
    · simp [hn0]
    · have hlen : data.length < n := (h n hmem).resolve_left hn0
      rw [if_neg hn0, List.get?_eq_none.mpr (by omega)]
  · intro q recs k h
    unfold enhanced_search_full
    rw [show ai_assisted_search none recs k = [] from rfl, h3]
    unfold rank_local sortTruncate
    rw [h]
    simp [sortDesc]

/-- C5 witness: a digitless response, an all-out-of-range response, and a
no-local-match query with a failed provider call. -/
theorem provider_failure_degradation_witness :
    ai_assisted_search (some "I cannot answer that") [{ question := "x" }] 3 = [] ∧
    ai_assisted_search (some "0, 999") [{ question := "x" }] 3 = [] ∧
    enhanced_search_full "zzzz" [{ question := "milk" }] 3 none = [] :=
  ⟨provider_failure_degradation.2.1 "I cannot answer that" [{ question := "x" }] 3
    (by decide),
   provider_failure_degradation.2.1 "0, 999" [{ question := "x" }] 3 (by decide),
   provider_failure_degradation.2.2.2 "zzzz" [{ question := "milk" }] 3 (by decide)⟩

/-- The record and list of the C6 counterexample: one question key
duplicated with two different scores. -/
def recA : Record := { question := "a" }

def cexList : List Cand := [(recA, 100), (recA, 50)]

/-- C6 counterexample: merging a list with itself is NOT always sort-and-
truncate.  With a duplicated question key the dict collapses the two
candidates into one, while sort-and-truncate keeps both. -/
theorem merge_idempotence_cex :
    merge_step cexList cexList 2 ≠ sortTruncate cexList 2 := by
  have hc : combine (cexList.take 2) cexList = [("a", (recA, 100))] := by decide
  have hL : merge_step cexList cexList 2 = [(recA, 100)] := by
    unfold merge_step
    rw [hc]
    simp [sortTruncate, sortDesc]
  have hR : sortTruncate cexList 2 = cexList := by
    unfold sortTruncate sortDesc
    rw [List.mergeSort_of_sorted (by decide)]
    decide
  rw [hL, hR]
  decide

/-- C6 (amended): for every candidate list `X` whose question keys are
pairwise distinct and every `k`, merging `X` with itself under the
dedup-by-question, keep-max-score rule and truncating to `k` equals
sorting `X` descending and truncating to `k`. -/
theorem merge_idempotent_nodup (X : List Cand) (k : Nat)
    (hX : (X.map qkey).Nodup) : merge_step X X k = sortTruncate X k := by
  unfold merge_step
  rw [combine_self_take X k hX, List.map_map,
    show Prod.snd ∘ entry = id from rfl, List.map_id]

/-- C6 witness: the amended merge identity at a concrete singleton. -/
theorem merge_idempotent_nodup_witness :
    merge_step [(recA, 100)] [(recA, 100)] 3 = sortTruncate [(recA, 100)] 3 :=
  merge_idempotent_nodup [(recA, 100)] 3 (by decide)

/-- C7: Related-questions parsing: splits on `;`, trims each piece, drops
empties, preserves order, caps at 5; `"a; b ;c;"` parses to
`["a", "b", "c"]`, `""` to `[]`, and 7 entries are capped at 5. -/
theorem related_questions_parsing :
    parse_related_questions "a; b ;c;" = ["a", "b", "c"] ∧
    parse_related_questions "" = [] ∧
    parse_related_questions "q1;q2;q3;q4;q5;q6;q7" = ["q1", "q2", "q3", "q4", "q5"] ∧
    (∀ s, (parse_related_questions s).length ≤ 5) ∧
    (∀ s, List.Sublist (parse_related_questions s)
      (((pySplit ';' s.data).map stripStr).map (fun l => (⟨l⟩ : String)))) ∧
    (∀ s x, x ∈ parse_related_questions s → x ≠ "") := by
  refine ⟨by decide, by decide, by decide, ?_, ?_, ?_⟩
  · intro s
    by_cases h : s = ""
    · simp [parse_related_questions, h]
    · simp only [parse_related_questions, if_neg h, List.length_map]
      exact List.length_take_le 5 _
  · intro s
    by_cases h : s = ""
    · simp [parse_related_questions, h]
    · simp only [parse_related_questions, if_neg h]
      exact List.Sublist.map _ ((List.take_sublist 5 _).trans (List.filter_sublist _))
  · intro s x hx
    by_cases h : s = ""
    · simp [parse_related_questions, h] at hx
    · simp only [parse_related_questions, if_neg h, List.mem_map] at hx
      obtain ⟨l, hl, hxl⟩ := hx
      have hl' := List.mem_of_mem_take hl
      have hne := (List.mem_filter.mp hl').2
      subst hxl
      intro hcon
      have hl0 : l = [] := congrArg String.data hcon
      rw [hl0] at hne
      simp at hne

/-- C7 witness: the cap and the non-emptiness of parsed entries at a
concrete input. -/
theorem related_questions_parsing_witness :
    (parse_related_questions "a; b ;c;").length ≤ 5 ∧ ("a" : String) ≠ "" :=
  ⟨related_questions_parsing.2.2.2.1 "a; b ;c;",
   related_questions_parsing.2.2.2.2.2 "a; b ;c;" "a" (by decide)⟩

/-- C8: Source-citation formatting: `"Mayo Clinic – https://mayoclinic.org/x"`
renders as a link with label `"Mayo Clinic"` and target
`https://mayoclinic.org/x` (the regex finds exactly that URL); a source
with no URL renders as the raw string; and a non-empty source always
contributes its section to the composed response parts. -/
theorem source_citation_format :
    source_section "Mayo Clinic – https://mayoclinic.org/x" =
      "**📚 Source:** [Mayo Clinic](https://mayoclinic.org/x)" ∧
    findUrl "Mayo Clinic – https://mayoclinic.org/x".data =
      some "https://mayoclinic.org/x".data ∧
    (∀ s, findUrl s.data = none → source_section s = "**📚 Source:** " ++ s) ∧
    (∀ r : Record, r.source ≠ "" → source_section r.source ∈ response_parts r) := by
  refine ⟨by decide, by decide, ?_, ?_⟩
  · intro s h
    unfold source_section
    rw [h]
  · intro r h
    unfold response_parts
    rw [if_neg h]
    simp

/-- C8 witness: the no-URL path and the membership of the source section
in the composed parts, at concrete records. -/
theorem source_citation_format_witness :
    source_section "Mayo Clinic" = "**📚 Source:** " ++ "Mayo Clinic" ∧
    source_section "S" ∈ response_parts { source := "S" } :=
  ⟨source_citation_format.2.2.1 "Mayo Clinic" (by decide),
   source_citation_format.2.2.2 { source := "S" } (by decide)⟩

/-- C9: Answer-boundary error containment: an internal fault is converted
by `get_response`'s `try/except` into the fixed supportive text plus an
`error` metadata field, and no non-faulting path ever produces an `error`
metadata field. -/
theorem answer_boundary_containment :
    (∀ q e, get_response_safe q (.error e) = (.plainText errorResponseText, .fault e)) ∧
    (∀ q results e, (get_response_safe q (.ok results)).2 ≠ Meta.fault e) := by
  refine ⟨fun q e => rfl, ?_⟩
  intro q results e
  cases results with
  | nil => simp [get_response_safe, get_response]
  | cons hd t =>
    obtain ⟨best, conf⟩ := hd
    simp only [get_response_safe, get_response]
    split_ifs <;> simp

/-- C9 witness: the error path and a non-error path at concrete inputs. -/
theorem answer_boundary_containment_witness :
    get_response_safe "q" (.error "boom") = (.plainText errorResponseText, .fault "boom") ∧
    (get_response_safe "q" (.ok [])).2 ≠ Meta.fault "boom" :=
  ⟨answer_boundary_containment.1 "q" "boom",
   answer_boundary_containment.2 "q" [] "boom"⟩

/-- C10: The multi-match bonus of the enhanced scorer is exactly 0.15 (15)
whenever at least two words matched and 0 otherwise; the 0.25 (25) branch
guarded by `word_matches >= 3` is dead code, shadowed by the
`word_matches >= 2` branch of the `if/elif`. -/
theorem multi_bonus_shadowed :
    ∀ wm : Nat, multiBonus wm = (if 2 ≤ wm then (15 : Score) else 0) ∧
      multiBonus wm ≠ 25 := by
  intro wm
  unfold multiBonus
  by_cases h : 2 ≤ wm
  · rw [if_pos h, if_pos h]
    exact ⟨rfl, by decide⟩
  · have h3 : ¬ 3 ≤ wm := fun hh => h (by omega)
    rw [if_neg h, if_neg h3, if_neg h]
    exact ⟨rfl, by decide⟩

/-- C10 witness: the bonus at five matched words is 0.15, never 0.25. -/
theorem multi_bonus_shadowed_witness :
    multiBonus 5 = 15 ∧ multiBonus 5 ≠ 25 :=
  ⟨(multi_bonus_shadowed 5).1.trans (by decide), (multi_bonus_shadowed 5).2⟩
